import Mathlib

/-!
Shallow embedding of the jsonlog structured-log encoder (package jsonlog:
New, handler.Enabled / WithAttrs / WithGroup / Handle, state.clone /
openGroup / closeGroup / closeAll / attr, jsonBytes, and the sync.Pool
buffer bookkeeping), together with an executable JSON syntax checker used
to state validity properties about the emitted lines.
-/

namespace Jsonlog

-- Resolved slog attribute values, as a closed variant: null (the zero
-- slog.Value, kind Any holding nil), booleans, integers, strings, nested
-- groups, and a value on which json.Marshal fails (for example a NaN float
-- or a channel). AttrL is a list of attributes (key-value pairs), kept as a
-- mutual inductive so that the recursion of state.attr is structural.
mutual
inductive JValue : Type where
  | vnull : JValue
  | vbool : Bool → JValue
  | vint : Int → JValue
  | vstr : String → JValue
  | vgroup : AttrL → JValue
  | vbad : JValue
inductive AttrL : Type where
  | anil : AttrL
  | acons : String → JValue → AttrL → AttrL
end

/-- Lowercase hex digit character for a value below 16. -/
def hexChar (n : Nat) : Char :=
  if n < 10 then Char.ofNat ('0'.toNat + n) else Char.ofNat ('a'.toNat + (n - 10))

/-- One character of Go encoding/json string escaping (HTML escaping on, as
json.Marshal has by default): quote, backslash and the common control
characters get two-character escapes, other control characters and the
HTML-sensitive characters get \u00XX escapes, U+2028/U+2029 get \u202X
escapes, and every other character passes through unchanged. -/
def escapeChar (c : Char) : List Char :=
  if c = '"' then ['\\', '"']
  else if c = '\\' then ['\\', '\\']
  else if c = '\n' then ['\\', 'n']
  else if c = '\r' then ['\\', 'r']
  else if c = '\t' then ['\\', 't']
  else if c.toNat < 0x20 ∨ c = '<' ∨ c = '>' ∨ c = '&' then
    ['\\', 'u', '0', '0', hexChar (c.toNat / 16), hexChar (c.toNat % 16)]
  else if c.toNat = 0x2028 ∨ c.toNat = 0x2029 then
    ['\\', 'u', '2', '0', '2', hexChar (c.toNat % 16)]
  else [c]

/-- Go json.Marshal of a string: a quoted, escaped JSON string literal. -/
def encodeString (s : String) : List Char :=
  '"' :: ((s.data.map escapeChar).flatten ++ ['"'])

/-- Go json.Marshal of a resolved scalar value; none models a Marshal
error (the Go code never reaches Marshal with a group value, because
state.attr handles the group kind before calling jsonBytes, so the group
arm is unreachable from the embedded code paths). -/
def encodeValue : JValue → Option (List Char)
  | .vnull => some "null".data
  | .vbool b => some (cond b "true".data "false".data)
  | .vint n => some (toString n).data
  | .vstr s => some (encodeString s)
  | .vgroup _ => none
  | .vbad => none

/-- jsonBytes: b, _ := json.Marshal(v); return b.  The error is discarded,
and on a failed encode json.Marshal returns nil bytes, so the result is
the empty byte sequence. -/
def jsonBytes (v : JValue) : List Char := (encodeValue v).getD []

/-- state: preformatted attribute fragment plus bookkeeping.  groupOpenIdx
is kept innermost-first (Go appends marks at the end of the slice and pops
from the end; this list keeps the top of that stack at the head). -/
structure State where
  confirmedLast : Nat
  groupOpenIdx : List Nat
  separator : List Char
  buf : List Char
deriving DecidableEq

/-- new(state): the zero value. -/
def emptyState : State := ⟨0, [], [], []⟩

/-- state.clone: content copy (buffer storage and capacity are modelled
separately, by the pool model below). -/
def State.clone (s : State) : State :=
  ⟨s.confirmedLast, s.groupOpenIdx, s.separator, s.buf⟩

/-- state.openGroup: record the rollback point (the buffer length before
anything is appended), append separator, encoded name and an opening
brace, and clear the separator. -/
def State.openGroup (h : State) (n : String) : State :=
  { confirmedLast := h.confirmedLast,
    groupOpenIdx := h.buf.length :: h.groupOpenIdx,
    separator := [],
    buf := h.buf ++ h.separator ++ encodeString n ++ ':' :: '\x7b' :: [] }

/-- state.closeGroup: pop the top rollback point; if an attribute was
confirmed past it, close the group with a brace and confirm the new
length, otherwise truncate the buffer back to the rollback point.  (Go
indexes the slice and panics when no group is open; every caller
guarantees a group is open, and the empty case here is the identity.) -/
def State.closeGroup (h : State) : State :=
  match h.groupOpenIdx with
  | [] => h
  | lastGroupIdx :: rest =>
    if lastGroupIdx < h.confirmedLast then
      { confirmedLast := (h.buf ++ ['\x7d']).length,
        groupOpenIdx := rest,
        separator := h.separator,
        buf := h.buf ++ ['\x7d'] }
    else
      { confirmedLast := h.confirmedLast,
        groupOpenIdx := rest,
        separator := h.separator,
        buf := h.buf.take lastGroupIdx }

/-- Iterate closeGroup a fixed number of times (Go ranges over the mark
slice, whose length is read once at loop entry). -/
def State.closeAllAux : Nat → State → State
  | 0, s => s
  | n + 1, s => State.closeAllAux n s.closeGroup

/-- state.closeAll: close every open group, then clear the mark list. -/
def State.closeAll (s : State) : State :=
  let t := State.closeAllAux s.groupOpenIdx.length s
  { t with groupOpenIdx := [] }

/-- attr.Equal(slog.Attr{}): empty key and the zero value. -/
def isZeroAttr (k : String) (v : JValue) : Bool :=
  k == "" && (match v with | .vnull => true | _ => false)

-- state.attr: drop the zero attribute; recurse into groups (inlining the
-- members when the key is empty, opening and closing a synthetic group
-- otherwise, and dropping empty groups); drop scalar attributes with an
-- empty key; otherwise append separator, encoded key, colon and encoded
-- value, set the separator to a comma and confirm the new length.
mutual
def State.attr (h : State) (k : String) (v : JValue) : State :=
  if isZeroAttr k v then h
  else
    match v with
    | .vgroup g =>
      match g with
      | .anil => h
      | .acons _ _ _ =>
        let h1 := if k ≠ "" then h.openGroup k else h
        let h2 := State.attrs h1 g
        if k ≠ "" then h2.closeGroup else h2
    | _ =>
      if k == "" then h
      else
        { confirmedLast := (h.buf ++ h.separator ++ encodeString k ++ ':' :: jsonBytes v).length,
          groupOpenIdx := h.groupOpenIdx,
          separator := [','],
          buf := h.buf ++ h.separator ++ encodeString k ++ ':' :: jsonBytes v }
def State.attrs (h : State) (l : AttrL) : State :=
  match l with
  | .anil => h
  | .acons k v rest => State.attrs (State.attr h k v) rest
end

/-- handler: minimum level, owned state, shared lock and writer.  The lock
and the writer are identified by opaque ids (muRef, wRef); stateRef is the
identity of the state allocation, so that a clone (a new allocation) has a
stateRef different from its source while state.clone copies the content. -/
structure Handler where
  minLevel : Int
  stateRef : Nat
  state : State
  muRef : Nat
  wRef : Nat
deriving DecidableEq

/-- New(level, out): fresh state, fresh lock, the given writer. -/
def New (level : Int) (w : Nat) : Handler := ⟨level, 0, emptyState, 0, w⟩

/-- handler.clone: copies minLevel, clones the state (a new allocation,
hence a fresh stateRef), and shares mu and w. -/
def Handler.clone (h : Handler) : Handler :=
  { h with stateRef := h.stateRef + 1, state := h.state.clone }

/-- handler.Enabled: l >= h.minLevel. -/
def Handler.Enabled (h : Handler) (l : Int) : Bool := decide (h.minLevel ≤ l)

/-- handler.WithAttrs: the handler itself when the attribute list is
empty, otherwise a clone whose state has folded in every attribute. -/
def Handler.WithAttrs (h : Handler) (attrs : AttrL) : Handler :=
  match attrs with
  | .anil => h
  | .acons _ _ _ =>
    let h2 := h.clone
    { h2 with state := State.attrs h2.state attrs }

/-- handler.WithGroup: the handler itself when the name is empty,
otherwise a clone whose state has the group opened. -/
def Handler.WithGroup (h : Handler) (n : String) : Handler :=
  if n = "" then h
  else
    let h2 := h.clone
    { h2 with state := h2.state.openGroup n }

/-- slog.Level.String: base label plus a signed offset (fmt %+d). -/
def levelOffset (base : String) (d : Int) : String :=
  if d = 0 then base
  else if 0 < d then base ++ "+" ++ toString d
  else base ++ toString d

/-- slog.Level.String, with the standard thresholds DEBUG=-4, INFO=0,
WARN=4, ERROR=8; Level.MarshalJSON quotes this text. -/
def levelText (l : Int) : String :=
  if l < 0 then levelOffset "DEBUG" (l + 4)
  else if l < 4 then levelOffset "INFO" l
  else if l < 8 then levelOffset "WARN" (l - 4)
  else levelOffset "ERROR" (l - 8)

/-- slog.Record, as Handle consumes it: an optional timestamp (none models
r.Time.IsZero(); a present timestamp is carried as its RFC-3339 text,
which time.Time.MarshalJSON renders inside quotes), a level, a message and
the per-call attributes. -/
structure Record where
  time : Option String
  level : Int
  message : String
  attrs : AttrL

/-- trace.SpanContextFromContext + IsValid: either no valid trace
correlation, or a pair of ids rendered as lowercase hex digit strings. -/
abbrev SpanCtx := Option (List (Fin 16) × List (Fin 16))

/-- Hex rendering of a trace or span id. -/
def hexOf (l : List (Fin 16)) : List Char := l.map (fun d => hexChar d.val)

/-- handler.Handle, modelled as the byte sequence written to the writer
(the buffer-pool side of Handle is modelled separately below): clone the
state, fold in the record attributes, close all groups, then assemble the
line exactly as the Go code appends it. -/
def handleLine (h : Handler) (ctx : SpanCtx) (r : Record) : List Char :=
  let st := (State.attrs h.state.clone r.attrs).closeAll
  let buf : List Char := ['\x7b']
  let buf := match r.time with
    | none => buf
    | some t => buf ++ "\"time\":".data ++ encodeString t ++ [',']
  let buf := buf ++ "\"level\":".data ++ encodeString (levelText r.level)
  let buf := match ctx with
    | none => buf
    | some (tid, sid) =>
      buf ++ ",\"trace_id\":\"".data ++ hexOf tid ++
        "\",\"span_id\":\"".data ++ hexOf sid ++ ['"']
  let buf := buf ++ ",\"message\":".data ++ encodeString r.message
  let buf := if 0 < st.buf.length then buf ++ ',' :: st.buf else buf
  buf ++ "\x7d\n".data

/-- Time segment of the spec's field order: omitted exactly when the
record carries no timestamp. -/
def timeSegment : Option String → List Char
  | none => []
  | some t => "\"time\":".data ++ encodeString t ++ [',']

/-- Trace segment of the spec's field order: trace_id and span_id, both
present exactly when the context carries a valid trace correlation. -/
def traceSegment : SpanCtx → List Char
  | none => []
  | some (tid, sid) =>
    ",\"trace_id\":\"".data ++ hexOf tid ++
      "\",\"span_id\":\"".data ++ hexOf sid ++ ['"']

/-- Attribute segment of the spec's field order: the accumulated fragment
prefixed by a comma exactly when the fragment is non-empty. -/
def attrSegment (frag : List Char) : List Char :=
  if frag = [] then [] else ',' :: frag

/-- Spec-shaped record line (written from the spec's field-order words):
one object holding, in order, the optional time, the always-present level,
the optional trace correlation pair, the message, and the attribute
fragment, closed and newline-terminated. -/
def specLine (time : Option String) (level : Int) (ctx : SpanCtx)
    (msg : String) (frag : List Char) : List Char :=
  '\x7b' :: (timeSegment time ++ "\"level\":".data ++ encodeString (levelText level) ++
    traceSegment ctx ++ ",\"message\":".data ++ encodeString msg ++
    attrSegment frag ++ "\x7d\n".data)

/-! Buffer-pool model.  A pooled buffer is represented by its capacity;
the pool by the list of free buffer capacities. -/

/-- stateBufferSize: the standard capacity of pooled buffers. -/
def stateBufferSize : Nat := 1024

/-- pool.Get: a pooled buffer when one is free, else the New function of
the pool allocates a buffer of the standard capacity. -/
def poolGet : List Nat → Nat × List Nat
  | [] => (stateBufferSize, [])
  | c :: rest => (c, rest)

/-- pool.Put: sync.Pool.Put stores the buffer unconditionally — there is
no capacity check on any release path in the source. -/
def poolPut (p : List Nat) (c : Nat) : List Nat := c :: p

/-- state.clone's buffer acquisition: slices.Clone (fresh storage of
capacity equal to the source length) when the source capacity exceeds
stateBufferSize, else a buffer from the pool.  The pair is the capacity of
the new backing storage and the remaining pool. -/
def cloneAcquire (srcLen srcCap : Nat) (p : List Nat) : Nat × List Nat :=
  if stateBufferSize < srcCap then (srcLen, p) else poolGet p

/-- The finalizer installed by state.clone: puts the clone's buffer back
into the pool, unconditionally. -/
def cloneRelease (p : List Nat) (c : Nat) : List Nat := poolPut p c

/-- Handle's write-buffer acquisition: fresh storage of capacity
len(state.buf)+160+len(message) when the cloned state's spare capacity is
too small, else a buffer from the pool. -/
def handleAcquire (stateLen stateCap msgLen : Nat) (p : List Nat) : Nat × List Nat :=
  if stateCap - stateLen < 160 + msgLen then (stateLen + 160 + msgLen, p)
  else poolGet p

/-- Handle's deferred release: pool.Put of the write buffer,
unconditionally. -/
def handleRelease (p : List Nat) (c : Nat) : List Nat := poolPut p c

/-! Derivation steps over a handler lineage, and the attributes that
confirm nothing (used to state group elision). -/

/-- One derivation: a WithGroup with the given name, or a WithAttrs with a
single attribute. -/
inductive Deriv : Type where
  | dgroup : String → Deriv
  | dattr : String → JValue → Deriv

/-- Apply one derivation to a handler. -/
def applyD (h : Handler) : Deriv → Handler
  | .dgroup n => h.WithGroup n
  | .dattr k v => h.WithAttrs (.acons k v .anil)

/-- Apply a sequence of derivations, left to right. -/
def deriveAll (h : Handler) (ds : List Deriv) : Handler := ds.foldl applyD h

-- elides: the attributes whose processing confirms nothing — the zero
-- attribute, scalar attributes with an empty key, and groups all of whose
-- members (recursively) elide; elidesL is the list form.
mutual
def elides : String → JValue → Bool
  | _, .vgroup g => elidesL g
  | k, _ => k == ""
def elidesL : AttrL → Bool
  | .anil => true
  | .acons k v rest => elides k v && elidesL rest
end

/-- Group-kind test on a resolved value (val.Kind() == slog.KindGroup). -/
def isGroupVal : JValue → Bool
  | .vgroup _ => true
  | _ => false

/-- A derivation that confirms no attribute: any WithGroup, or a WithAttrs
whose attribute elides. -/
def elidingD : Deriv → Bool
  | .dgroup _ => true
  | .dattr k v => elides k v

/-- States whose buffer extends s.buf above the rollback mark of a group
opened at s: confirmedLast still that of s, the buffer a (long enough)
extension of s.buf, and the open marks those of s below a mark at
s.buf.length, with every newer mark at or above it. -/
def ExtendsAbove (s t : State) : Prop :=
  t.confirmedLast = s.confirmedLast ∧
  s.buf.length ≤ t.buf.length ∧
  t.buf.take s.buf.length = s.buf ∧
  ∃ ms, t.groupOpenIdx = ms ++ s.buf.length :: s.groupOpenIdx ∧
    ∀ m ∈ ms, s.buf.length ≤ m

/-- Structural well-formedness of a state: the confirmed length is within
the buffer, every rollback mark lies strictly inside the buffer, and the
marks (innermost first) are strictly decreasing — Go's slice order,
bottom-first, is strictly increasing. -/
def GoodState (s : State) : Prop :=
  s.confirmedLast ≤ s.buf.length ∧
  (∀ m ∈ s.groupOpenIdx, m < s.buf.length) ∧
  s.groupOpenIdx.Pairwise (fun a b => b < a)

/-- States reachable from the empty state by the state operations (with
closeGroup only applied when a group is open, as its callers ensure). -/
inductive Reachable : State → Prop where
  | empty : Reachable emptyState
  | attr (s : State) (k : String) (v : JValue) : Reachable s → Reachable (s.attr k v)
  | openG (s : State) (n : String) : Reachable s → Reachable (s.openGroup n)
  | closeG (s : State) : Reachable s → s.groupOpenIdx ≠ [] → Reachable s.closeGroup
  | closeA (s : State) : Reachable s → Reachable s.closeAll
  | cloneR (s : State) : Reachable s → Reachable s.clone

/-! Executable JSON syntax checker (from the JSON grammar), used to state
validity and invalidity of emitted lines. -/

/-- JSON whitespace. -/
def isWs (c : Char) : Bool := c = ' ' ∨ c = '\t' ∨ c = '\n' ∨ c = '\r'

/-- Drop leading JSON whitespace. -/
def skipWs : List Char → List Char
  | [] => []
  | c :: rest => if isWs c then skipWs rest else c :: rest

/-- Decimal digit. -/
def isDigit (c : Char) : Bool := '0' ≤ c ∧ c ≤ '9'

/-- Hexadecimal digit. -/
def isHexDigit (c : Char) : Bool :=
  isDigit c ∨ ('a' ≤ c ∧ c ≤ 'f') ∨ ('A' ≤ c ∧ c ≤ 'F')

/-- Parse the remainder of a JSON string literal (after the opening
quote); some gives the input following the closing quote. -/
def parseStringRest : List Char → Option (List Char)
  | [] => none
  | '"' :: rest => some rest
  | '\\' :: e :: rest =>
    if e = 'u' then
      match rest with
      | a :: b :: c :: d :: rest2 =>
        if isHexDigit a ∧ isHexDigit b ∧ isHexDigit c ∧ isHexDigit d then
          parseStringRest rest2
        else none
      | _ => none
    else if e = '"' ∨ e = '\\' ∨ e = '/' ∨ e = 'b' ∨ e = 'f' ∨ e = 'n' ∨ e = 'r' ∨ e = 't' then
      parseStringRest rest
    else none
  | c :: rest => if c.toNat < 0x20 then none else parseStringRest rest

/-- Parse an optional JSON fraction part. -/
def parseFrac : List Char → Option (List Char)
  | '.' :: rest =>
    match rest with
    | c :: _ => if isDigit c then some (rest.dropWhile isDigit) else none
    | [] => none
  | cs => some cs

/-- Parse an optional JSON exponent part. -/
def parseExp : List Char → Option (List Char)
  | c :: rest =>
    if c = 'e' ∨ c = 'E' then
      let rest2 := match rest with
        | s :: r3 => if s = '+' ∨ s = '-' then r3 else s :: r3
        | [] => []
      match rest2 with
      | d :: _ => if isDigit d then some (rest2.dropWhile isDigit) else none
      | [] => none
    else some (c :: rest)
  | [] => some []

/-- Parse a JSON number. -/
def parseNumber (cs : List Char) : Option (List Char) :=
  let cs1 := match cs with | '-' :: r => r | _ => cs
  match cs1 with
  | c :: r =>
    if c = '0' then (parseFrac r).bind parseExp
    else if isDigit c then (parseFrac (r.dropWhile isDigit)).bind parseExp
    else none
  | [] => none

-- Fueled recursive-descent checker for JSON values, object member lists
-- and array element lists; some gives the unconsumed input.
mutual
def parseVal : Nat → List Char → Option (List Char)
  | 0, _ => none
  | Nat.succ fuel, cs =>
    match skipWs cs with
    | [] => none
    | '"' :: rest => parseStringRest rest
    | '\x7b' :: rest =>
      (match skipWs rest with
       | '\x7d' :: r2 => some r2
       | _ => parseMembers fuel rest)
    | '[' :: rest =>
      (match skipWs rest with
       | ']' :: r2 => some r2
       | _ => parseElems fuel rest)
    | 't' :: 'r' :: 'u' :: 'e' :: rest => some rest
    | 'f' :: 'a' :: 'l' :: 's' :: 'e' :: rest => some rest
    | 'n' :: 'u' :: 'l' :: 'l' :: rest => some rest
    | c :: rest => if c = '-' ∨ isDigit c then parseNumber (c :: rest) else none
def parseMembers : Nat → List Char → Option (List Char)
  | 0, _ => none
  | Nat.succ fuel, cs =>
    match skipWs cs with
    | '"' :: rest =>
      (match parseStringRest rest with
       | none => none
       | some r2 =>
         match skipWs r2 with
         | ':' :: r3 =>
           (match parseVal fuel r3 with
            | none => none
            | some r4 =>
              match skipWs r4 with
              | ',' :: r5 => parseMembers fuel r5
              | '\x7d' :: r5 => some r5
              | _ => none)
         | _ => none)
    | _ => none
def parseElems : Nat → List Char → Option (List Char)
  | 0, _ => none
  | Nat.succ fuel, cs =>
    match parseVal fuel cs with
    | none => none
    | some r =>
      match skipWs r with
      | ',' :: r2 => parseElems fuel r2
      | ']' :: r2 => some r2
      | _ => none
end

/-- A byte sequence is a syntactically valid JSON object (with
surrounding whitespace, a trailing newline included, allowed): it starts
with an opening brace and parses as one JSON value with nothing but
whitespace left. -/
def isValidJsonObject (cs : List Char) : Bool :=
  match skipWs cs with
  | '\x7b' :: _ =>
    (match parseVal (cs.length + 2) cs with
     | some rest => (skipWs rest).isEmpty
     | none => false)
  | _ => false

/-! Theorems. -/

set_option maxRecDepth 100000 in
/-- C1: the claim says every emitted line is syntactically valid JSON for
arbitrary records and attributes.  The code violates it: rolling back an
elided non-empty group of empty groups leaves the pending separator
empty, so the next attribute is appended without its comma.  On the
single emit with attributes a=1, g=group(h=group()), b=2 the handler
writes a line in which a and b are not separated, and that line is not a
valid JSON object. -/
theorem c1_invalid_line :
    handleLine (New 0 0) none ⟨none, 0, "m",
      .acons "a" (.vint 1)
        (.acons "g" (.vgroup (.acons "h" (.vgroup .anil) .anil))
          (.acons "b" (.vint 2) .anil))⟩ =
      "\x7b\"level\":\"INFO\",\"message\":\"m\",\"a\":1\"b\":2\x7d\n".data ∧
    isValidJsonObject
      "\x7b\"level\":\"INFO\",\"message\":\"m\",\"a\":1\"b\":2\x7d\n".data = false :=
  ⟨by decide, by decide⟩

/-- C2 (amended): level gating lives in Enabled, which returns false
exactly for levels below the minimum; Handle itself performs no level
check and unconditionally writes a non-empty line for every record. -/
theorem c2_gating (h : Handler) (l : Int) (ctx : SpanCtx) (r : Record) :
    (h.Enabled l = false ↔ l < h.minLevel) ∧ handleLine h ctx r ≠ [] := by
  constructor
  · simp [Handler.Enabled]
  · simp [handleLine]

set_option maxRecDepth 100000 in
/-- C2, counterexample to the claim as stated: a direct Handle call with a
DEBUG record on an INFO-level handler is not a no-op — it writes a full
line even though the level is not enabled. -/
theorem c2_counterexample :
    Handler.Enabled (New 0 0) (-4) = false ∧
    handleLine (New 0 0) none ⟨none, -4, "m", .anil⟩ =
      "\x7b\"level\":\"DEBUG\",\"message\":\"m\"\x7d\n".data :=
  ⟨by decide, by decide⟩

/-- Witness for c2_gating at a concrete handler and record. -/
theorem c2_witness :
    (Handler.Enabled (New 0 0) (-4) = false ↔ (-4 : Int) < (New 0 0).minLevel) ∧
    handleLine (New 0 0) none ⟨none, -4, "m", .anil⟩ ≠ [] :=
  c2_gating (New 0 0) (-4) none ⟨none, -4, "m", .anil⟩

/-- C3 (amended): closeGroup with an open group pops the top mark; when
confirmedLength exceeds the mark it appends exactly one closing brace and
sets confirmedLength to the new buffer length; otherwise it truncates the
buffer back to the mark, leaving confirmedLength and the pending
separator exactly as they were just before the call (the separator is not
restored to the value the confirmed content before the group requires —
openGroup cleared it). -/
theorem c3_closeGroup (s : State) (m : Nat) (rest : List Nat)
    (hm : s.groupOpenIdx = m :: rest) :
    s.closeGroup.groupOpenIdx = rest ∧
    (m < s.confirmedLast →
      s.closeGroup.buf = s.buf ++ ['\x7d'] ∧
      s.closeGroup.confirmedLast = s.closeGroup.buf.length ∧
      s.closeGroup.separator = s.separator) ∧
    (s.confirmedLast ≤ m →
      s.closeGroup.buf = s.buf.take m ∧
      s.closeGroup.confirmedLast = s.confirmedLast ∧
      s.closeGroup.separator = s.separator) := by
  by_cases hc : m < s.confirmedLast <;> simp [State.closeGroup, hm, hc]

set_option maxRecDepth 100000 in
/-- C3, counterexample to the claim's parenthetical: after one confirmed
attribute the separator is a comma, but opening a group and rolling it
back leaves the separator empty — not the comma the confirmed content
before the group requires — so a following attribute is appended without
a comma. -/
theorem c3_counterexample :
    ((State.attr emptyState "a" (JValue.vint 1)).openGroup "g").closeGroup.separator = [] ∧
    (State.attr emptyState "a" (JValue.vint 1)).separator = [','] ∧
    (State.attr (((State.attr emptyState "a" (JValue.vint 1)).openGroup "g").closeGroup)
        "b" (JValue.vint 2)).buf = "\"a\":1\"b\":2".data := by
  refine ⟨by decide, by decide, by decide⟩

set_option maxRecDepth 100000 in
/-- Witness for c3_closeGroup: the empty group g opened on a state with
one confirmed attribute (mark 5) rolls back to the five confirmed
bytes. -/
theorem c3_witness :
    ((State.attr emptyState "a" (JValue.vint 1)).openGroup "g").closeGroup.groupOpenIdx = [] ∧
    ((State.attr emptyState "a" (JValue.vint 1)).openGroup "g").closeGroup.buf =
      ((State.attr emptyState "a" (JValue.vint 1)).openGroup "g").buf.take 5 := by
  have h3 := c3_closeGroup ((State.attr emptyState "a" (JValue.vint 1)).openGroup "g")
    5 [] (by decide)
  exact ⟨h3.1, (h3.2.2 (by decide)).1⟩

/-- C5 (amended): the zero attribute, scalar attributes with an empty
key, and empty-group attributes are dropped without touching the state;
an empty-key attribute whose value is a non-empty group is not dropped —
its members are inlined (see the counterexample). -/
theorem c5_dropped (s : State) (k : String) (v : JValue) :
    (isZeroAttr k v = true → s.attr k v = s) ∧
    (k = "" ∧ isGroupVal v = false → s.attr k v = s) ∧
    (v = JValue.vgroup AttrL.anil → s.attr k v = s) := by
  refine ⟨fun hz => by cases v <;> simp_all [State.attr, isZeroAttr], ?_, ?_⟩
  · rintro ⟨rfl, hg⟩
    cases v <;> simp_all [State.attr, isZeroAttr, isGroupVal]
  · rintro rfl
    simp [State.attr, isZeroAttr]

set_option maxRecDepth 100000 in
/-- C5, counterexample to the claim as stated: the empty-key attribute
whose value is the non-empty group (b=1) does change the state — the
group's members are inlined into the buffer. -/
theorem c5_counterexample :
    State.attr emptyState "" (JValue.vgroup (AttrL.acons "b" (JValue.vint 1) AttrL.anil)) ≠
      emptyState ∧
    (State.attr emptyState "" (JValue.vgroup (AttrL.acons "b" (JValue.vint 1) AttrL.anil))).buf =
      "\"b\":1".data :=
  ⟨by decide, by decide⟩

/-- Witness for c5_dropped: the empty-key boolean attribute is dropped. -/
theorem c5_witness : State.attr emptyState "" (JValue.vbool true) = emptyState :=
  (c5_dropped emptyState "" (JValue.vbool true)).2.1 ⟨rfl, by decide⟩

set_option maxRecDepth 100000 in
/-- C6: the claim says a value that fails to JSON-encode is rendered as
the literal null and the line stays valid.  The code violates it:
jsonBytes discards the Marshal error and returns nil bytes, so the value
renders as nothing at all and the emitted line is not valid JSON. -/
theorem c6_unencodable :
    jsonBytes JValue.vbad = [] ∧
    jsonBytes JValue.vbad ≠ "null".data ∧
    handleLine (New 0 0) none ⟨none, 0, "m", .acons "k" JValue.vbad .anil⟩ =
      "\x7b\"level\":\"INFO\",\"message\":\"m\",\"k\":\x7d\n".data ∧
    isValidJsonObject "\x7b\"level\":\"INFO\",\"message\":\"m\",\"k\":\x7d\n".data = false :=
  ⟨by decide, by decide, by decide, by decide⟩

/-- C7 (amended): clone uses pooled storage exactly when the source
buffer's capacity is within the standard capacity, but both release paths
— the clone finalizer and Handle's deferred release — return buffers to
the pool unconditionally, with no capacity bound. -/
theorem c7_amended (len cap c : Nat) (p : List Nat) :
    (stateBufferSize < cap → cloneAcquire len cap p = (len, p)) ∧
    (cap ≤ stateBufferSize → cloneAcquire len cap p = poolGet p) ∧
    cloneRelease p c = c :: p ∧
    handleRelease p c = c :: p := by
  refine ⟨fun hcap => ?_, fun hcap => ?_, rfl, rfl⟩
  · simp [cloneAcquire, hcap]
  · simp [cloneAcquire, Nat.not_lt.mpr hcap]

/-- C7, counterexample to the claim as stated: emitting a 2000-byte
message from a fresh handler allocates a 2160-capacity write buffer
(the cloned state's 1024-capacity spare is too small) and the deferred
release pools it even though it exceeds the 1024-byte bound. -/
theorem c7_counterexample :
    handleRelease (handleAcquire 0 stateBufferSize 2000 []).2
        (handleAcquire 0 stateBufferSize 2000 []).1 = [2160] ∧
    stateBufferSize < 2160 := by
  refine ⟨by decide, by decide⟩

/-- Witness for c7_amended: an oversized source buffer is cloned into
fresh storage, and a release always pools. -/
theorem c7_witness :
    cloneAcquire 2000 2000 [] = (2000, []) ∧ cloneRelease [] 5 = [5] :=
  ⟨(c7_amended 2000 2000 5 []).1 (by decide), (c7_amended 2000 2000 5 []).2.2.1⟩

/-- Helper: the line Handle writes coincides with the spec-shaped line
built from the record's fields and the accumulated attribute fragment. -/
theorem handleLine_eq_specLine (h : Handler) (ctx : SpanCtx) (r : Record) :
    handleLine h ctx r =
      specLine r.time r.level ctx r.message ((State.attrs h.state.clone r.attrs).closeAll).buf := by
  unfold handleLine specLine timeSegment traceSegment attrSegment
  rcases r with ⟨time, level, msg, attrs⟩
  cases time <;> rcases ctx with _ | ⟨tid, sid⟩ <;>
    by_cases hf : ((State.attrs h.state.clone attrs).closeAll).buf = [] <;>
      simp [hf, List.length_pos, List.append_assoc]

/-- C8: every emitted record is one JSON object in the fixed field order —
time (omitted exactly when the record carries no timestamp), level (always
present, as the JSON-encoded label), trace_id and span_id (both present
exactly when the context carries a valid trace correlation), message, and
the accumulated attribute fragment prefixed by a comma exactly when the
fragment is non-empty — followed by the closing brace and a newline. -/
theorem c8_field_order (h : Handler) (ctx : SpanCtx) (r : Record) :
    handleLine h ctx r =
      specLine r.time r.level ctx r.message ((State.attrs h.state.clone r.attrs).closeAll).buf :=
  handleLine_eq_specLine h ctx r

set_option maxRecDepth 100000 in
/-- Witness for c8_field_order at a concrete record with a timestamp and a
trace correlation. -/
theorem c8_witness :
    handleLine (New 0 0) (some ([5, 11], [0, 5])) ⟨some "2024-01-01T00:00:00Z", 0, "m", .anil⟩ =
      specLine (some "2024-01-01T00:00:00Z") 0 (some ([5, 11], [0, 5])) "m"
        ((State.attrs (New 0 0).state.clone AttrL.anil).closeAll).buf :=
  c8_field_order (New 0 0) (some ([5, 11], [0, 5])) ⟨some "2024-01-01T00:00:00Z", 0, "m", .anil⟩

/-- Helper: closeGroup on a state whose confirmed length is within the
top mark rolls the buffer back to that mark, keeping everything else. -/
theorem closeGroup_rollback (t : State) (m : Nat) (rest : List Nat)
    (hm : t.groupOpenIdx = m :: rest) (hc : t.confirmedLast ≤ m) :
    t.closeGroup = ⟨t.confirmedLast, rest, t.separator, t.buf.take m⟩ := by
  simp [State.closeGroup, hm, Nat.not_lt.mpr hc]

/-- Helper: openGroup only appends to the buffer. -/
theorem openGroup_buf (s : State) (n : String) :
    (s.openGroup n).buf = s.buf ++ (s.separator ++ encodeString n ++ [':', '\x7b']) := by
  simp [State.openGroup]

-- Eliding attributes leave buffer, marks and confirmed length untouched
-- (the separator may still be cleared by a rolled-back group).
mutual
theorem attr_elides (k : String) (v : JValue) (s : State)
    (hwf : s.confirmedLast ≤ s.buf.length) (he : elides k v = true) :
    (s.attr k v).buf = s.buf ∧ (s.attr k v).groupOpenIdx = s.groupOpenIdx ∧
      (s.attr k v).confirmedLast = s.confirmedLast := by
  cases v with
  | vnull =>
    simp [elides] at he
    simp [State.attr, isZeroAttr, he]
  | vbool b =>
    simp [elides] at he
    simp [State.attr, isZeroAttr, he]
  | vint n =>
    simp [elides] at he
    simp [State.attr, isZeroAttr, he]
  | vstr t =>
    simp [elides] at he
    simp [State.attr, isZeroAttr, he]
  | vbad =>
    simp [elides] at he
    simp [State.attr, isZeroAttr, he]
  | vgroup g =>
    cases g with
    | anil => simp [State.attr, isZeroAttr]
    | acons k2 v2 rest =>
      have hl : elidesL (AttrL.acons k2 v2 rest) = true := by
        simpa [elides] using he
      by_cases hk : k = ""
      · have ih := attrs_elides (AttrL.acons k2 v2 rest) s hwf hl
        simpa [State.attr, isZeroAttr, hk] using ih
      · have hwf1 : (s.openGroup k).confirmedLast ≤ (s.openGroup k).buf.length := by
          simp [State.openGroup]
          omega
        have ih := attrs_elides (AttrL.acons k2 v2 rest) (s.openGroup k) hwf1 hl
        have hmarks : (State.attrs (s.openGroup k) (AttrL.acons k2 v2 rest)).groupOpenIdx
            = s.buf.length :: s.groupOpenIdx := by
          rw [ih.2.1]
          simp [State.openGroup]
        have hcfm : (State.attrs (s.openGroup k) (AttrL.acons k2 v2 rest)).confirmedLast
            = s.confirmedLast := by
          rw [ih.2.2]
          simp [State.openGroup]
        have hcl := closeGroup_rollback _ s.buf.length s.groupOpenIdx hmarks
          (by rw [hcfm]; exact hwf)
        have hred : s.attr k (JValue.vgroup (AttrL.acons k2 v2 rest)) =
            (State.attrs (s.openGroup k) (AttrL.acons k2 v2 rest)).closeGroup := by
          simp [State.attr, isZeroAttr, hk]
        rw [hred, hcl]
        refine ⟨?_, rfl, hcfm⟩
        rw [ih.1, openGroup_buf]
        exact List.take_left s.buf _
theorem attrs_elides (l : AttrL) (s : State)
    (hwf : s.confirmedLast ≤ s.buf.length) (he : elidesL l = true) :
    (s.attrs l).buf = s.buf ∧ (s.attrs l).groupOpenIdx = s.groupOpenIdx ∧
      (s.attrs l).confirmedLast = s.confirmedLast := by
  cases l with
  | anil => simp [State.attrs]
  | acons k v rest =>
    rw [elidesL] at he
    simp only [Bool.and_eq_true] at he
    have h1 := attr_elides k v s hwf he.1
    have hwf1 : (s.attr k v).confirmedLast ≤ (s.attr k v).buf.length := by
      rw [h1.1, h1.2.2]
      exact hwf
    have h2 := attrs_elides rest (s.attr k v) hwf1 he.2
    have hred : s.attrs (AttrL.acons k v rest) = (s.attr k v).attrs rest := by
      simp [State.attrs]
    rw [hred]
    exact ⟨h2.1.trans h1.1, h2.2.1.trans h1.2.1, h2.2.2.trans h1.2.2⟩
end

/-- Helper: iterating closeGroup splits over fuel addition. -/
theorem closeAllAux_add (a b : Nat) : ∀ s : State,
    State.closeAllAux (a + b) s = State.closeAllAux b (State.closeAllAux a s) := by
  induction a with
  | zero => intro s; rw [Nat.zero_add]; rfl
  | succ a ih =>
    intro s
    have harith : a + 1 + b = (a + b) + 1 := by omega
    rw [harith]
    show State.closeAllAux (a + b) s.closeGroup = _
    rw [ih s.closeGroup]
    rfl

/-- Helper: closing a stack of marks all at or above L, with the
confirmed length at or below L, rolls the buffer back to L. -/
theorem closeAllAux_rollback : ∀ (ms : List Nat) (t : State) (L : Nat) (base : List Nat),
    t.groupOpenIdx = ms ++ L :: base → t.confirmedLast ≤ L → (∀ m ∈ ms, L ≤ m) →
    State.closeAllAux (ms.length + 1) t =
      ⟨t.confirmedLast, base, t.separator, t.buf.take L⟩ := by
  intro ms
  induction ms with
  | nil =>
    intro t L base hm hc _
    have hm' : t.groupOpenIdx = L :: base := by simpa using hm
    show State.closeAllAux 0 t.closeGroup = _
    rw [closeGroup_rollback t L base hm' hc]
    rfl
  | cons m ms ih =>
    intro t L base hm hc hms
    have hm' : t.groupOpenIdx = m :: (ms ++ L :: base) := by simpa using hm
    have hLm : L ≤ m := hms m (by simp)
    have hcg := closeGroup_rollback t m (ms ++ L :: base) hm' (le_trans hc hLm)
    show State.closeAllAux (ms.length + 1) t.closeGroup = _
    rw [hcg]
    rw [ih ⟨t.confirmedLast, ms ++ L :: base, t.separator, t.buf.take m⟩ L base rfl hc
      (fun x hx => hms x (by simp [hx]))]
    simp [List.take_take, Nat.min_eq_left hLm]

/-- Helper: closeGroup reads only the confirmed length, the marks and the
buffer, so it sends states agreeing on those to states agreeing on
those. -/
theorem closeGroup_congr (s₁ s₂ : State) (h1 : s₁.confirmedLast = s₂.confirmedLast)
    (h2 : s₁.groupOpenIdx = s₂.groupOpenIdx) (h3 : s₁.buf = s₂.buf) :
    s₁.closeGroup.confirmedLast = s₂.closeGroup.confirmedLast ∧
    s₁.closeGroup.groupOpenIdx = s₂.closeGroup.groupOpenIdx ∧
    s₁.closeGroup.buf = s₂.closeGroup.buf := by
  cases hm : s₂.groupOpenIdx with
  | nil =>
    have hm1 : s₁.groupOpenIdx = [] := h2.trans hm
    simp [State.closeGroup, hm, hm1, h1, h2, h3]
  | cons m rest =>
    have hm1 : s₁.groupOpenIdx = m :: rest := h2.trans hm
    by_cases hc : m < s₂.confirmedLast <;>
      simp [State.closeGroup, hm, hm1, h1, h3, hc]

/-- Helper: closeAllAux preserves agreement on confirmed length, marks
and buffer. -/
theorem closeAllAux_congr (n : Nat) : ∀ s₁ s₂ : State,
    s₁.confirmedLast = s₂.confirmedLast → s₁.groupOpenIdx = s₂.groupOpenIdx →
    s₁.buf = s₂.buf →
    (State.closeAllAux n s₁).confirmedLast = (State.closeAllAux n s₂).confirmedLast ∧
    (State.closeAllAux n s₁).groupOpenIdx = (State.closeAllAux n s₂).groupOpenIdx ∧
    (State.closeAllAux n s₁).buf = (State.closeAllAux n s₂).buf := by
  induction n with
  | zero => intro s₁ s₂ h1 h2 h3; exact ⟨h1, h2, h3⟩
  | succ n ih =>
    intro s₁ s₂ h1 h2 h3
    have hcg := closeGroup_congr s₁ s₂ h1 h2 h3
    exact ih s₁.closeGroup s₂.closeGroup hcg.1 hcg.2.1 hcg.2.2

/-- Helper: the rendered fragment ignores the separator field. -/
theorem closeAll_buf_congr (s₁ s₂ : State) (h1 : s₁.confirmedLast = s₂.confirmedLast)
    (h2 : s₁.groupOpenIdx = s₂.groupOpenIdx) (h3 : s₁.buf = s₂.buf) :
    s₁.closeAll.buf = s₂.closeAll.buf := by
  have hc := closeAllAux_congr s₁.groupOpenIdx.length s₁ s₂ h1 h2 h3
  simp only [State.closeAll]
  rw [← h2]
  exact hc.2.2

/-- Helper: closing everything on a state that extends s above an open
mark at s.buf.length renders the same fragment as closing s itself. -/
theorem extends_closeAll_buf (s t : State) (hwf : s.confirmedLast ≤ s.buf.length)
    (hex : ExtendsAbove s t) : t.closeAll.buf = s.closeAll.buf := by
  obtain ⟨hconf, hlen, htake, ms, hmarks, hms⟩ := hex
  have hroll := closeAllAux_rollback ms t s.buf.length s.groupOpenIdx hmarks
    (by omega) hms
  have hcongr := closeAllAux_congr s.groupOpenIdx.length
    ⟨t.confirmedLast, s.groupOpenIdx, t.separator, t.buf.take s.buf.length⟩ s
    hconf rfl htake
  have hlenm : t.groupOpenIdx.length = (ms.length + 1) + s.groupOpenIdx.length := by
    rw [hmarks]; simp; omega
  have hbufs : (State.closeAllAux t.groupOpenIdx.length t).buf =
      (State.closeAllAux s.groupOpenIdx.length s).buf := by
    rw [hlenm, closeAllAux_add (ms.length + 1) s.groupOpenIdx.length t, hroll]
    exact hcongr.2.2
  simpa [State.closeAll] using hbufs

/-- Helper: opening a group extends the state above the new mark. -/
theorem extends_openGroup_self (s : State) (n : String) : ExtendsAbove s (s.openGroup n) := by
  refine ⟨rfl, ?_, ?_, [], by simp [State.openGroup], by simp⟩
  · rw [openGroup_buf]; simp
  · rw [openGroup_buf]; exact List.take_left _ _

/-- Helper: a further openGroup preserves extension. -/
theorem extends_openGroup_step (s t : State) (n : String) (hex : ExtendsAbove s t) :
    ExtendsAbove s (t.openGroup n) := by
  obtain ⟨hconf, hlen, htake, ms, hmarks, hms⟩ := hex
  refine ⟨hconf, ?_, ?_, t.buf.length :: ms, ?_, ?_⟩
  · rw [openGroup_buf]; simp; omega
  · rw [openGroup_buf, List.take_append_of_le_length hlen]; exact htake
  · simp [State.openGroup, hmarks]
  · intro x hx
    rcases List.mem_cons.mp hx with hx | hx
    · omega
    · exact hms x hx

/-- Helper: an eliding attribute preserves extension. -/
theorem extends_attr_step (s t : State) (k : String) (v : JValue)
    (hwf : s.confirmedLast ≤ s.buf.length) (hex : ExtendsAbove s t)
    (he : elides k v = true) : ExtendsAbove s (t.attr k v) := by
  obtain ⟨hconf, hlen, htake, ms, hmarks, hms⟩ := hex
  have hwft : t.confirmedLast ≤ t.buf.length := by omega
  have ha := attr_elides k v t hwft he
  exact ⟨ha.2.2.trans hconf, by rw [ha.1]; exact hlen, by rw [ha.1]; exact htake,
    ms, ha.2.1.trans hmarks, hms⟩

/-- Helper: a list of eliding attributes preserves extension. -/
theorem extends_attrs_step (s t : State) (l : AttrL)
    (hwf : s.confirmedLast ≤ s.buf.length) (hex : ExtendsAbove s t)
    (he : elidesL l = true) : ExtendsAbove s (t.attrs l) := by
  obtain ⟨hconf, hlen, htake, ms, hmarks, hms⟩ := hex
  have hwft : t.confirmedLast ≤ t.buf.length := by omega
  have ha := attrs_elides l t hwft he
  exact ⟨ha.2.2.trans hconf, by rw [ha.1]; exact hlen, by rw [ha.1]; exact htake,
    ms, ha.2.1.trans hmarks, hms⟩

/-- Helper: handler-level derivations that confirm nothing preserve
extension of the state. -/
theorem deriveAll_extends (s : State) (hwf : s.confirmedLast ≤ s.buf.length) :
    ∀ (ds : List Deriv) (ht : Handler), ds.all elidingD = true →
      ExtendsAbove s ht.state → ExtendsAbove s (deriveAll ht ds).state := by
  intro ds
  induction ds with
  | nil => intro ht _ hex; exact hex
  | cons d ds ih =>
    intro ht hall hex
    rw [List.all_cons, Bool.and_eq_true] at hall
    have hstep : ExtendsAbove s (applyD ht d).state := by
      cases d with
      | dgroup n =>
        by_cases hn : n = ""
        · simpa [applyD, Handler.WithGroup, hn] using hex
        · have hst : (applyD ht (Deriv.dgroup n)).state = ht.state.openGroup n := by
            simp [applyD, Handler.WithGroup, hn, Handler.clone, State.clone]
          rw [hst]
          exact extends_openGroup_step s ht.state n hex
      | dattr k v =>
        have hst : (applyD ht (Deriv.dattr k v)).state = ht.state.attr k v := by
          simp [applyD, Handler.WithAttrs, Handler.clone, State.clone, State.attrs]
        rw [hst]
        exact extends_attr_step s ht.state k v hwf hex (by simpa [elidingD] using hall.1)
    exact ih (applyD ht d) hall.2 hstep

/-- C4: a group opened with a non-empty name (via WithGroup), followed by
any sequence of derivations (nested WithGroups with any names, WithAttrs
whose attributes confirm nothing) and an emit whose per-call attributes
also confirm nothing, writes a line identical to the one the base handler
writes — no trace of the group's key.  In particular (see the witness)
WithGroup(a) followed by an emit with zero attributes yields the record
with only the level and message fields. -/
theorem c4_group_elision (h : Handler) (n : String) (ds : List Deriv) (ctx : SpanCtx)
    (r : Record) (hwf : h.state.confirmedLast ≤ h.state.buf.length) (hn : n ≠ "")
    (hds : ds.all elidingD = true) (hr : elidesL r.attrs = true) :
    handleLine (deriveAll (h.WithGroup n) ds) ctx r = handleLine h ctx r := by
  have hbase : (h.WithGroup n).state = h.state.openGroup n := by
    simp [Handler.WithGroup, hn, Handler.clone, State.clone]
  have hex0 : ExtendsAbove h.state (h.WithGroup n).state := by
    rw [hbase]
    exact extends_openGroup_self h.state n
  have hexT : ExtendsAbove h.state (deriveAll (h.WithGroup n) ds).state :=
    deriveAll_extends h.state hwf ds (h.WithGroup n) hds hex0
  have hexT2 : ExtendsAbove h.state
      (State.attrs (deriveAll (h.WithGroup n) ds).state.clone r.attrs) :=
    extends_attrs_step h.state _ r.attrs hwf hexT hr
  have hfragL : ((State.attrs (deriveAll (h.WithGroup n) ds).state.clone r.attrs).closeAll).buf
      = h.state.closeAll.buf :=
    extends_closeAll_buf h.state _ hwf hexT2
  have ha := attrs_elides r.attrs h.state hwf hr
  have hfragR : ((State.attrs h.state.clone r.attrs).closeAll).buf = h.state.closeAll.buf :=
    closeAll_buf_congr _ _ ha.2.2 ha.2.1 ha.1
  rw [handleLine_eq_specLine, handleLine_eq_specLine, hfragL, hfragR]

set_option maxRecDepth 100000 in
/-- Witness for c4_group_elision, which is also the spec's Scenario C:
WithGroup(a) then emit with zero attributes yields the same line as the
root handler, namely the record with only level and message. -/
theorem c4_witness :
    handleLine (Handler.WithGroup (New 0 0) "a") none ⟨none, 0, "m", .anil⟩ =
      handleLine (New 0 0) none ⟨none, 0, "m", .anil⟩ ∧
    handleLine (New 0 0) none ⟨none, 0, "m", .anil⟩ =
      "\x7b\"level\":\"INFO\",\"message\":\"m\"\x7d\n".data :=
  ⟨c4_group_elision (New 0 0) "a" [] none ⟨none, 0, "m", .anil⟩
      (by decide) (by decide) (by decide) (by decide),
    by decide⟩

/-- C9: deriving with an empty attribute list or an empty group name
returns the handler itself (the identical state object, no clone); a
non-empty derivation returns a handler that shares the lock and writer,
keeps the minimum level, and owns a freshly cloned state with the
attributes folded in (or the group opened). -/
theorem c9_derivation (h : Handler) (attrs : AttrL) (n : String) :
    h.WithAttrs AttrL.anil = h ∧
    h.WithGroup "" = h ∧
    (attrs ≠ AttrL.anil →
      (h.WithAttrs attrs).muRef = h.muRef ∧ (h.WithAttrs attrs).wRef = h.wRef ∧
      (h.WithAttrs attrs).minLevel = h.minLevel ∧
      (h.WithAttrs attrs).stateRef ≠ h.stateRef ∧
      (h.WithAttrs attrs).state = State.attrs h.state.clone attrs) ∧
    (n ≠ "" →
      (h.WithGroup n).muRef = h.muRef ∧ (h.WithGroup n).wRef = h.wRef ∧
      (h.WithGroup n).minLevel = h.minLevel ∧
      (h.WithGroup n).stateRef ≠ h.stateRef ∧
      (h.WithGroup n).state = State.openGroup h.state.clone n) := by
  refine ⟨rfl, by simp [Handler.WithGroup], fun ha => ?_, fun hn => ?_⟩
  · cases attrs with
    | anil => exact absurd rfl ha
    | acons k v rest =>
      refine ⟨rfl, rfl, rfl, ?_, rfl⟩
      have hh : (h.WithAttrs (AttrL.acons k v rest)).stateRef = h.stateRef + 1 := rfl
      omega
  · simp only [Handler.WithGroup, if_neg hn]
    refine ⟨rfl, rfl, rfl, ?_, rfl⟩
    have hh : (h.clone).stateRef = h.stateRef + 1 := rfl
    omega

/-- Witness for c9_derivation: concrete non-empty derivations allocate a
new state and share the lock, and the empty derivation is the identity. -/
theorem c9_witness :
    ((New 3 7).WithAttrs (AttrL.acons "a" (JValue.vint 1) AttrL.anil)).stateRef ≠
      (New 3 7).stateRef ∧
    ((New 3 7).WithAttrs (AttrL.acons "a" (JValue.vint 1) AttrL.anil)).muRef =
      (New 3 7).muRef ∧
    ((New 3 7).WithGroup "g").stateRef ≠ (New 3 7).stateRef ∧
    (New 3 7).WithAttrs AttrL.anil = New 3 7 := by
  have h9 := c9_derivation (New 3 7) (AttrL.acons "a" (JValue.vint 1) AttrL.anil) "g"
  have hne : AttrL.acons "a" (JValue.vint 1) AttrL.anil ≠ AttrL.anil := by
    intro hc
    exact AttrL.noConfusion hc
  exact ⟨(h9.2.2.1 hne).2.2.2.1, (h9.2.2.1 hne).1,
    (h9.2.2.2 (by decide)).2.2.2.1, h9.1⟩

/-- Helper: an encoded string literal has at least its two quotes. -/
theorem encodeString_len (n : String) : 2 ≤ (encodeString n).length := by
  simp [encodeString]

/-- Helper: the empty state is well-formed. -/
theorem good_empty : GoodState emptyState := by
  refine ⟨le_refl 0, ?_, ?_⟩ <;> simp [emptyState]

/-- Helper: confirming an appended scalar keeps the state well-formed. -/
theorem good_scalar_append (s : State) (hg : GoodState s) (ext : List Char) :
    GoodState ⟨(s.buf ++ ext).length, s.groupOpenIdx, [','], s.buf ++ ext⟩ := by
  obtain ⟨h1, h2, h3⟩ := hg
  refine ⟨le_refl _, ?_, h3⟩
  intro m hm
  have := h2 m hm
  simp [List.length_append]
  omega

/-- Helper: openGroup keeps the state well-formed. -/
theorem good_openGroup (s : State) (n : String) (hg : GoodState s) :
    GoodState (s.openGroup n) := by
  obtain ⟨h1, h2, h3⟩ := hg
  have hlen : s.buf.length + 2 ≤ (s.openGroup n).buf.length := by
    rw [openGroup_buf]
    have := encodeString_len n
    simp [List.length_append]
    omega
  refine ⟨?_, ?_, ?_⟩
  · show (s.openGroup n).confirmedLast ≤ _
    have hc : (s.openGroup n).confirmedLast = s.confirmedLast := rfl
    rw [hc]
    omega
  · intro m hm
    have hms : (s.openGroup n).groupOpenIdx = s.buf.length :: s.groupOpenIdx := rfl
    rw [hms] at hm
    rcases List.mem_cons.mp hm with rfl | hm
    · omega
    · have := h2 m hm
      omega
  · have hms : (s.openGroup n).groupOpenIdx = s.buf.length :: s.groupOpenIdx := rfl
    rw [hms, List.pairwise_cons]
    exact ⟨fun x hx => h2 x hx, h3⟩

/-- Helper: closeGroup keeps the state well-formed. -/
theorem good_closeGroup (s : State) (hg : GoodState s) : GoodState s.closeGroup := by
  obtain ⟨h1, h2, h3⟩ := hg
  cases hm : s.groupOpenIdx with
  | nil =>
    have : s.closeGroup = s := by simp [State.closeGroup, hm]
    rw [this]
    exact ⟨h1, h2, h3⟩
  | cons m rest =>
    have hmlt : m < s.buf.length := h2 m (by rw [hm]; simp)
    have hpw := List.pairwise_cons.mp (hm ▸ h3)
    by_cases hc : m < s.confirmedLast
    · have : s.closeGroup = ⟨(s.buf ++ ['\x7d']).length, rest, s.separator, s.buf ++ ['\x7d']⟩ := by
        simp [State.closeGroup, hm, hc]
      rw [this]
      refine ⟨le_refl _, ?_, hpw.2⟩
      intro x hx
      have hxr : x < m := hpw.1 x hx
      simp [List.length_append]
      omega
    · have : s.closeGroup = ⟨s.confirmedLast, rest, s.separator, s.buf.take m⟩ := by
        simp [State.closeGroup, hm, hc]
      rw [this]
      have htl : (s.buf.take m).length = m := by
        simp [List.length_take]
        omega
      refine ⟨?_, ?_, hpw.2⟩
      · show s.confirmedLast ≤ (s.buf.take m).length
        rw [htl]
        omega
      · intro x hx
        have hxr : x < m := hpw.1 x hx
        rw [htl]
        omega

/-- Helper: iterated closeGroup keeps the state well-formed. -/
theorem good_closeAllAux (n : Nat) : ∀ s, GoodState s → GoodState (State.closeAllAux n s) := by
  induction n with
  | zero => intro s hg; exact hg
  | succ n ih => intro s hg; exact ih s.closeGroup (good_closeGroup s hg)

/-- Helper: closeAll keeps the state well-formed. -/
theorem good_closeAll (s : State) (hg : GoodState s) : GoodState s.closeAll := by
  obtain ⟨h1, h2, h3⟩ := good_closeAllAux s.groupOpenIdx.length s hg
  exact ⟨h1, by simp [State.closeAll], by simp [State.closeAll]⟩

/-- Helper: attr on a non-group value keeps the state well-formed. -/
theorem good_attr_scalar (s : State) (hg : GoodState s) (k : String) (v : JValue)
    (hv : isGroupVal v = false) : GoodState (s.attr k v) := by
  by_cases hz : isZeroAttr k v = true
  · have hred : s.attr k v = s := by cases v <;> simp_all [State.attr, isZeroAttr]
    rw [hred]
    exact hg
  · by_cases hk : k == ""
    · have hred : s.attr k v = s := by
        cases v <;> simp_all [State.attr, isZeroAttr, isGroupVal]
      rw [hred]
      exact hg
    · have hred : s.attr k v =
          ⟨(s.buf ++ s.separator ++ encodeString k ++ ':' :: jsonBytes v).length,
            s.groupOpenIdx, [','],
            s.buf ++ s.separator ++ encodeString k ++ ':' :: jsonBytes v⟩ := by
        cases v <;> simp_all [State.attr, isZeroAttr, isGroupVal]
      rw [hred]
      have hgs := good_scalar_append s hg (s.separator ++ encodeString k ++ ':' :: jsonBytes v)
      simpa [List.append_assoc] using hgs

-- attr and attrs keep the state well-formed.
mutual
theorem good_attr (k : String) (v : JValue) (s : State) (hg : GoodState s) :
    GoodState (s.attr k v) := by
  cases v with
  | vnull => exact good_attr_scalar s hg k _ rfl
  | vbool b => exact good_attr_scalar s hg k _ rfl
  | vint n => exact good_attr_scalar s hg k _ rfl
  | vstr t => exact good_attr_scalar s hg k _ rfl
  | vbad => exact good_attr_scalar s hg k _ rfl
  | vgroup g =>
    cases g with
    | anil =>
      have hred : s.attr k (JValue.vgroup AttrL.anil) = s := by
        simp [State.attr, isZeroAttr]
      rw [hred]
      exact hg
    | acons k2 v2 rest =>
      by_cases hk : k = ""
      · have hred : s.attr k (JValue.vgroup (AttrL.acons k2 v2 rest)) =
            State.attrs s (AttrL.acons k2 v2 rest) := by
          simp [State.attr, isZeroAttr, hk]
        rw [hred]
        exact good_attrs (AttrL.acons k2 v2 rest) s hg
      · have hred : s.attr k (JValue.vgroup (AttrL.acons k2 v2 rest)) =
            (State.attrs (s.openGroup k) (AttrL.acons k2 v2 rest)).closeGroup := by
          simp [State.attr, isZeroAttr, hk]
        rw [hred]
        exact good_closeGroup _
          (good_attrs (AttrL.acons k2 v2 rest) (s.openGroup k) (good_openGroup s k hg))
theorem good_attrs (l : AttrL) (s : State) (hg : GoodState s) : GoodState (s.attrs l) := by
  cases l with
  | anil =>
    have hred : s.attrs AttrL.anil = s := by simp [State.attrs]
    rw [hred]
    exact hg
  | acons k v rest =>
    have hred : s.attrs (AttrL.acons k v rest) = (s.attr k v).attrs rest := by
      simp [State.attrs]
    rw [hred]
    exact good_attrs rest (s.attr k v) (good_attr k v s hg)
end

/-- Helper: every reachable state is well-formed. -/
theorem good_reachable (s : State) (hr : Reachable s) : GoodState s := by
  induction hr with
  | empty => exact good_empty
  | attr s k v _ ih => exact good_attr k v s ih
  | openG s n _ ih => exact good_openGroup s n ih
  | closeG s _ _ ih => exact good_closeGroup s ih
  | closeA s _ ih => exact good_closeAll s ih
  | cloneR s _ ih => exact ih

/-- C10: every state reachable from the empty state by attr, openGroup,
closeGroup (with an open group), closeAll and clone has its confirmed
length at most the buffer length, every rollback mark at most the buffer
length, and the marks in Go's bottom-first slice order (the reverse of
the top-first list kept here) strictly increasing. -/
theorem c10_invariant (s : State) (hr : Reachable s) :
    s.confirmedLast ≤ s.buf.length ∧
    (∀ m ∈ s.groupOpenIdx, m ≤ s.buf.length) ∧
    s.groupOpenIdx.reverse.Pairwise (fun a b => a < b) := by
  obtain ⟨h1, h2, h3⟩ := good_reachable s hr
  refine ⟨h1, fun m hm => le_of_lt (h2 m hm), ?_⟩
  rw [List.pairwise_reverse]
  exact h3

/-- Witness for c10_invariant at a concrete reachable state with an open
group below and above a confirmed attribute. -/
theorem c10_witness :
    (((emptyState.openGroup "a").attr "b" (JValue.vint 1)).openGroup "c").confirmedLast ≤
      (((emptyState.openGroup "a").attr "b" (JValue.vint 1)).openGroup "c").buf.length ∧
    (∀ m ∈ (((emptyState.openGroup "a").attr "b" (JValue.vint 1)).openGroup "c").groupOpenIdx,
      m ≤ (((emptyState.openGroup "a").attr "b" (JValue.vint 1)).openGroup "c").buf.length) ∧
    (((emptyState.openGroup "a").attr "b"
        (JValue.vint 1)).openGroup "c").groupOpenIdx.reverse.Pairwise (fun a b => a < b) :=
  c10_invariant _ (Reachable.openG _ _ (Reachable.attr _ _ _
    (Reachable.openG _ _ Reachable.empty)))

end Jsonlog
